import Mathlib

/-
  Verification of the rittenstreamlit pay-calculation core
  (src/ritten_app.py): the rate resolver `get_tarief_for_date` and the
  pay calculator `calculate_payment`, shallowly embedded over ℚ with
  wall-clock times counted in minutes on the reference day.
-/

namespace Ritten

/-- Splits a character list at every occurrence of the separator, keeping
empty segments, mirroring how a string such as "09:00" is cut at ':'. -/
def splitOnChar (sep : Char) : List Char → List (List Char)
  | [] => [[]]
  | c :: cs =>
    let r := splitOnChar sep cs
    if c = sep then [] :: r
    else
      match r with
      | [] => [[c]]
      | seg :: segs => (c :: seg) :: segs

/-- Numeric value of a digit list (most significant first); 0 on []. -/
def digitsVal (cs : List Char) : Nat :=
  cs.foldl (fun acc c => acc * 10 + (c.toNat - 48)) 0

/-- Reads a non-empty all-digit character list as a natural number. -/
def digitsToNat (cs : List Char) : Option Nat :=
  if cs ≠ [] ∧ cs.all Char.isDigit then some (digitsVal cs) else none

/-- Model of datetime.strptime(s, "%H:%M") (src/ritten_app.py lines 60-61):
two digit groups of at most two digits separated by ':', hour below 24 and
minute below 60. The result is the time of day in minutes; `none` models
the ValueError raised on an unparseable string. -/
def parseHM (s : String) : Option Nat :=
  match splitOnChar ':' s.toList with
  | [hcs, mcs] =>
    match digitsToNat hcs, digitsToNat mcs with
    | some hv, some mv =>
      if hcs.length ≤ 2 ∧ mcs.length ≤ 2 ∧ hv < 24 ∧ mv < 60 then
        some (hv * 60 + mv)
      else none
    | _, _ => none
  | _ => none

/-- Drops whitespace from both ends, as Python float() does on strings. -/
def trimChars (cs : List Char) : List Char :=
  ((cs.dropWhile Char.isWhitespace).reverse.dropWhile Char.isWhitespace).reverse

/-- Unsigned decimal literal, staged as (integer part, fraction value,
fraction length): digits with an optional single point; "12", "12.", ".5"
and "12.5" are all accepted, as by Python float(). -/
def parseDecCore (cs : List Char) : Option (ℕ × ℕ × ℕ) :=
  match splitOnChar '.' cs with
  | [a] => (digitsToNat a).map (fun n => (n, 0, 0))
  | [a, b] =>
    if (a ≠ [] ∨ b ≠ []) ∧ a.all Char.isDigit ∧ b.all Char.isDigit then
      some (digitsVal a, digitsVal b, b.length)
    else none
  | _ => none

/-- Sign and digit parts of a decimal string: optional sign around an
unsigned decimal literal, whitespace stripped. -/
def parseDecParts (s : String) : Option (Bool × ℕ × ℕ × ℕ) :=
  match trimChars s.toList with
  | '-' :: rest => (parseDecCore rest).map (fun p => (true, p))
  | '+' :: rest => (parseDecCore rest).map (fun p => (false, p))
  | cs => (parseDecCore cs).map (fun p => (false, p))

/-- Rational value of parsed decimal parts. -/
def ratOfParts : Bool × ℕ × ℕ × ℕ → ℚ
  | (neg, ip, fv, fl) => (if neg then -1 else 1) * ((ip : ℚ) + (fv : ℚ) / 10 ^ fl)

/-- Model of Python float(s) on a decimal string. -/
def parseDec (s : String) : Option ℚ :=
  (parseDecParts s).map ratOfParts

/-- Raw cell value of a rate field as it arrives from the sheet: already
numeric, a text cell, or absent from the record. -/
inductive RawVal where
  | num (q : ℚ)
  | txt (s : String)
  | missing
deriving DecidableEq

/-- Model of float(str(v).replace(",", ".")) (src/ritten_app.py line 82):
comma decimal separators are normalized to points before parsing; `none`
models the exception on unrepairable text (and the KeyError lookup failure
on a missing field, which equally aborts the calculation). -/
def normVal : RawVal → Option ℚ
  | .num q => some q
  | .txt s => parseDec (String.mk (s.toList.map fun c => if c = ',' then '.' else c))
  | .missing => none

/-- Rate record of the Tarieven sheet. `vanaf` is the effective date
(already through pd.to_datetime with errors="coerce"; `none` models NaT),
encoded as an integer so that dates compare by ≤. -/
structure Tarief where
  vanaf : Option ℤ
  day_rate : RawVal
  night_rate : RawVal
  surplus_rate : RawVal
  km_rate : RawVal
deriving DecidableEq

/-- Condition of the pandas filter tarieven["Vanaf"] <= datum
(src/ritten_app.py line 52); NaT never qualifies. -/
def vanafLE (t : Tarief) (datum : ℤ) : Bool :=
  match t.vanaf with
  | some d => decide (d ≤ datum)
  | none => false

/-- Embedding of get_tarief_for_date (src/ritten_app.py lines 48-55):
keep the rates effective on or before the date and return the last one in
collection order (geldig.iloc[-1]); when none qualifies fall back to the
first entry of the unfiltered collection (tarieven.iloc[0]). `none` only
on an empty collection, where the source would raise. -/
def get_tarief_for_date (tarieven : List Tarief) (datum : ℤ) : Option Tarief :=
  match (tarieven.filter fun t => vanafLE t datum).getLast? with
  | some t => some t
  | none => tarieven.head?

/-- Normalization of the four rate fields of a record, leaving the Vanaf
field untouched (src/ritten_app.py line 82); `none` when any field fails. -/
def normTarief (t : Tarief) : Option (ℚ × ℚ × ℚ × ℚ) :=
  match normVal t.day_rate, normVal t.night_rate, normVal t.surplus_rate, normVal t.km_rate with
  | some d, some n, some sp, some k => some (d, n, sp, k)
  | _, _, _, _ => none

/-- End of the shift on the reference timeline in minutes: if end < start
the shift crosses midnight and the end is advanced by one day
(src/ritten_app.py lines 62-63). -/
def endAdjZ (s e : ℕ) : ℤ :=
  if (e : ℤ) < (s : ℤ) then (e : ℤ) + 1440 else (e : ℤ)

/-- Start of the night window: 22:00 on the reference day, in minutes. -/
def night_start : ℤ := 1320

/-- End of the night window: 06:00 on the day after the reference day
(src/ritten_app.py line 70), in minutes. -/
def night_end : ℤ := 1800

/-- total_hours = (end - start).total_seconds() / 3600
(src/ritten_app.py line 64). -/
def totalHoursOf (s e : ℕ) : ℚ :=
  ((endAdjZ s e - (s : ℤ) : ℤ) : ℚ) / 60

/-- surplus_hours = max(0, total_hours - 8) (src/ritten_app.py line 66). -/
def surplusOf (s e : ℕ) : ℚ :=
  max 0 (totalHoursOf s e - 8)

/-- remaining_hours = total_hours - surplus_hours (src/ritten_app.py
line 67). -/
def remainingOf (s e : ℕ) : ℚ :=
  totalHoursOf s e - surplusOf s e

/-- Branch structure of the night-hours computation (src/ritten_app.py
lines 72-76): a shift reaching from daytime into the window counts the
portion from 22:00 to min(end, 06:00 next day); otherwise a shift starting
at/after 22:00 or ending at/before 06:00 next day counts all remaining
hours; otherwise zero. -/
def nightRawOf (s e : ℕ) : ℚ :=
  if (s : ℤ) < night_start ∧ night_start < endAdjZ s e then
    ((min (endAdjZ s e) night_end - night_start : ℤ) : ℚ) / 60
  else if night_start ≤ (s : ℤ) ∨ endAdjZ s e ≤ night_end then
    remainingOf s e
  else 0

/-- night_hours = max(0, min(night_hours, remaining_hours))
(src/ritten_app.py line 78). -/
def nightOf (s e : ℕ) : ℚ :=
  max 0 (min (nightRawOf s e) (remainingOf s e))

/-- normal_hours = remaining_hours - night_hours (src/ritten_app.py
line 79). -/
def normalOf (s e : ℕ) : ℚ :=
  remainingOf s e - nightOf s e

/-- Python round() to the nearest integer, ties to the even neighbour. -/
def roundHalfEven (x : ℚ) : ℤ :=
  if x - ⌊x⌋ < 1 / 2 then ⌊x⌋
  else if 1 / 2 < x - ⌊x⌋ then ⌊x⌋ + 1
  else if ⌊x⌋ % 2 = 0 then ⌊x⌋ else ⌊x⌋ + 1

/-- Python round(x, 2). -/
def round2 (x : ℚ) : ℚ :=
  ((roundHalfEven (x * 100) : ℤ) : ℚ) / 100

/-- Output row of calculate_payment (src/ritten_app.py lines 91-97). -/
structure Breakdown where
  normale_uren : ℚ
  nachturen : ℚ
  surplus_uren : ℚ
  totale_uren : ℚ
  totaal : ℚ
deriving DecidableEq

/-- Embedding of calculate_payment (src/ritten_app.py lines 58-101):
parse both times, adjust a midnight-crossing end, split total hours into
surplus and remaining, compute night and normal hours, normalize the rate
fields and price the shift; every exception path of the source (time parse
failure, rate-field normalization failure, missing field) returns `none`. -/
def calculate_payment (start_time end_time : String) (total_km : ℚ) (tarief : Tarief) :
    Option Breakdown :=
  match parseHM start_time with
  | none => none
  | some s =>
    match parseHM end_time with
    | none => none
    | some e =>
      match normTarief tarief with
      | none => none
      | some (day, night, surp, km) =>
        some ⟨round2 (normalOf s e),
              round2 (nightOf s e),
              round2 (surplusOf s e),
              round2 (totalHoursOf s e),
              round2 (normalOf s e * day + nightOf s e * night +
                      surplusOf s e * surp + total_km * km)⟩

/-- Total shift duration in whole minutes. -/
def totalMinutes (s e : ℕ) : ℕ :=
  (endAdjZ s e - (s : ℤ)).toNat

/-- Rate record with the values of the worked scenarios of the spec,
as text cells the way the sheet delivers them. -/
def tariefStd : Tarief :=
  ⟨some 0, RawVal.txt "14.45", RawVal.txt "15.57", RawVal.txt "19.52", RawVal.txt "0.29"⟩

/-- Rate record effective 2024-01-01 (dates encoded as yyyymmdd). -/
def rateJan : Tarief :=
  ⟨some 20240101, RawVal.num 1, RawVal.num 1, RawVal.num 1, RawVal.num 1⟩

/-- Rate record effective 2024-06-01 (dates encoded as yyyymmdd). -/
def rateJun : Tarief :=
  ⟨some 20240601, RawVal.num 2, RawVal.num 2, RawVal.num 2, RawVal.num 2⟩

/-- Chronologically appended two-rate collection of the resolver
scenario. -/
def demoRates : List Tarief := [rateJan, rateJun]

/-- Normalization of the standard scenario rate record evaluates to the
four numeric rates of the spec scenarios. -/
lemma normTarief_std : normTarief tariefStd = some (1445/100, 1557/100, 1952/100, 29/100) := by
  have h1 : parseDecParts "14.45" = some (false, 14, 45, 2) := by decide
  have h2 : parseDecParts "15.57" = some (false, 15, 57, 2) := by decide
  have h3 : parseDecParts "19.52" = some (false, 19, 52, 2) := by decide
  have h4 : parseDecParts "0.29" = some (false, 0, 29, 2) := by decide
  have e1 : String.mk ("14.45".toList.map fun c => if c = ',' then '.' else c) = "14.45" := by decide
  have e2 : String.mk ("15.57".toList.map fun c => if c = ',' then '.' else c) = "15.57" := by decide
  have e3 : String.mk ("19.52".toList.map fun c => if c = ',' then '.' else c) = "19.52" := by decide
  have e4 : String.mk ("0.29".toList.map fun c => if c = ',' then '.' else c) = "0.29" := by decide
  simp only [normTarief, tariefStd, normVal, parseDec, e1, e2, e3, e4, h1, h2, h3, h4,
    Option.map_some]
  norm_num [ratOfParts]

/-- The adjusted end never precedes the start when the start is a valid
time of day. -/
lemma le_endAdjZ (s e : ℕ) (hs : s < 1440) : (s : ℤ) ≤ endAdjZ s e := by
  unfold endAdjZ
  split <;> omega

/-- Cast form of the duration in minutes. -/
lemma totalMinutes_castZ (s e : ℕ) (hs : s < 1440) :
    ((totalMinutes s e : ℕ) : ℤ) = endAdjZ s e - (s : ℤ) := by
  have h := le_endAdjZ s e hs
  unfold totalMinutes
  omega

/-- A shift between two valid times of day lasts less than one day. -/
lemma totalMinutes_lt (s e : ℕ) (hs : s < 1440) (he : e < 1440) :
    totalMinutes s e < 1440 := by
  unfold totalMinutes endAdjZ
  split <;> omega

/-- Total hours are the minute count divided by sixty. -/
lemma total_eq (s e : ℕ) (hs : s < 1440) :
    totalHoursOf s e = ((totalMinutes s e : ℕ) : ℚ) / 60 := by
  unfold totalHoursOf
  rw [← totalMinutes_castZ s e hs]
  norm_num

/-- Surplus hours are the minutes beyond 480, divided by sixty. -/
lemma surplus_eq (s e : ℕ) (hs : s < 1440) :
    surplusOf s e = ((totalMinutes s e - 480 : ℕ) : ℚ) / 60 := by
  unfold surplusOf
  rw [total_eq s e hs]
  rcases le_or_lt (totalMinutes s e) 480 with h | h
  · rw [Nat.sub_eq_zero_of_le h, max_eq_left]
    · norm_num
    · have hq : ((totalMinutes s e : ℕ) : ℚ) ≤ 480 := by exact_mod_cast h
      linarith
  · rw [max_eq_right, Nat.cast_sub h.le]
    · ring
    · have hq : (480 : ℚ) ≤ ((totalMinutes s e : ℕ) : ℚ) := by exact_mod_cast h.le
      linarith

/-- Remaining hours are the minutes capped at 480, divided by sixty. -/
lemma remaining_eq (s e : ℕ) (hs : s < 1440) :
    remainingOf s e = ((min (totalMinutes s e) 480 : ℕ) : ℚ) / 60 := by
  unfold remainingOf
  rw [total_eq s e hs, surplus_eq s e hs]
  rcases le_or_lt (totalMinutes s e) 480 with h | h
  · rw [min_eq_left h, Nat.sub_eq_zero_of_le h]
    norm_num
  · rw [min_eq_right h.le, Nat.cast_sub h.le]
    push_cast
    ring

/-- Minimum commutes with division by sixty on natural casts. -/
lemma cast_min_div (w r : ℕ) :
    min ((w : ℚ) / 60) ((r : ℚ) / 60) = ((min w r : ℕ) : ℚ) / 60 := by
  rcases le_total w r with h | h
  · rw [min_eq_left (by gcongr), min_eq_left h]
  · rw [min_eq_right (by gcongr), min_eq_right h]

/-- Night-hours branch where the shift reaches from daytime into the
night window. -/
lemma nightRaw_caseA (s e : ℕ) (h : (s : ℤ) < night_start ∧ night_start < endAdjZ s e) :
    nightRawOf s e = ((min (endAdjZ s e) night_end - night_start : ℤ) : ℚ) / 60 := by
  unfold nightRawOf
  rw [if_pos h]

/-- Night-hours branch where all remaining hours count as night hours. -/
lemma nightRaw_caseB (s e : ℕ) (h : ¬((s : ℤ) < night_start ∧ night_start < endAdjZ s e))
    (h2 : night_start ≤ (s : ℤ) ∨ endAdjZ s e ≤ night_end) :
    nightRawOf s e = remainingOf s e := by
  unfold nightRawOf
  rw [if_neg h, if_pos h2]

/-- Night-hours branch where the raw night hours stay zero. -/
lemma nightRaw_caseC (s e : ℕ) (h : ¬((s : ℤ) < night_start ∧ night_start < endAdjZ s e))
    (h2 : ¬(night_start ≤ (s : ℤ) ∨ endAdjZ s e ≤ night_end)) :
    nightRawOf s e = 0 := by
  unfold nightRawOf
  rw [if_neg h, if_neg h2]

/-- Every hour component of the split is a whole number of minutes over
sixty, and normal and night minutes add up to the capped remainder. -/
lemma hours_rep (s e : ℕ) (hs : s < 1440) :
    ∃ a b : ℕ, a + b = min (totalMinutes s e) 480 ∧
      normalOf s e = (a : ℚ) / 60 ∧ nightOf s e = (b : ℚ) / 60 := by
  have hrem := remaining_eq s e hs
  have hrem0 : (0 : ℚ) ≤ remainingOf s e := by rw [hrem]; positivity
  by_cases h1 : (s : ℤ) < night_start ∧ night_start < endAdjZ s e
  · -- the shift reaches from daytime into the night window
    have hpos : (0 : ℤ) < min (endAdjZ s e) night_end - night_start := by
      have hlt : night_start < min (endAdjZ s e) night_end :=
        lt_min h1.2 (by unfold night_start night_end; norm_num)
      omega
    obtain ⟨w, hw⟩ : ∃ w : ℕ, (w : ℤ) = min (endAdjZ s e) night_end - night_start :=
      ⟨(min (endAdjZ s e) night_end - night_start).toNat, Int.toNat_of_nonneg hpos.le⟩
    have hb : nightOf s e = ((min w (min (totalMinutes s e) 480) : ℕ) : ℚ) / 60 := by
      unfold nightOf
      rw [nightRaw_caseA s e h1, hrem, ← hw, Int.cast_natCast,
        cast_min_div w (min (totalMinutes s e) 480), max_eq_right (by positivity)]
    refine ⟨min (totalMinutes s e) 480 - min w (min (totalMinutes s e) 480),
           min w (min (totalMinutes s e) 480), by omega, ?_, hb⟩
    unfold normalOf
    rw [hrem, hb, Nat.cast_sub (min_le_right _ _), sub_div]
  by_cases h2 : night_start ≤ (s : ℤ) ∨ endAdjZ s e ≤ night_end
  · -- the whole remaining duration counts as night hours
    have hb : nightOf s e = remainingOf s e := by
      unfold nightOf
      rw [nightRaw_caseB s e h1 h2, min_self, max_eq_right hrem0]
    refine ⟨0, min (totalMinutes s e) 480, by omega, ?_, ?_⟩
    · unfold normalOf
      rw [hb]
      norm_num
    · rw [hb, hrem]
  · -- the daytime branch with zero night hours
    have hb : nightOf s e = 0 := by
      unfold nightOf
      rw [nightRaw_caseC s e h1 h2, min_eq_left hrem0, max_self]
    refine ⟨min (totalMinutes s e) 480, 0, by omega, ?_, ?_⟩
    · unfold normalOf
      rw [hb, hrem]
      norm_num
    · rw [hb]
      norm_num

/-- Rounding an integer rational returns the integer. -/
lemma roundHalfEven_intCast (z : ℤ) : roundHalfEven ((z : ℚ)) = z := by
  unfold roundHalfEven
  rw [Int.floor_intCast]
  norm_num

/-- Rounding an integer plus one third rounds down. -/
lemma roundHalfEven_third (z : ℤ) : roundHalfEven ((z : ℚ) + 1 / 3) = z := by
  unfold roundHalfEven
  have hf : ⌊(z : ℚ) + 1 / 3⌋ = z := by
    rw [Int.floor_eq_iff]
    constructor <;> linarith
  rw [hf]
  norm_num

/-- Rounding an integer plus two thirds rounds up. -/
lemma roundHalfEven_twothird (z : ℤ) : roundHalfEven ((z : ℚ) + 2 / 3) = z + 1 := by
  unfold roundHalfEven
  have hf : ⌊(z : ℚ) + 2 / 3⌋ = z := by
    rw [Int.floor_eq_iff]
    constructor <;> linarith
  rw [hf]
  norm_num

/-- A whole number of minutes expressed in hundredths of an hour is at
most a third of a hundredth away from its rounding. -/
lemma roundHalfEven_err (m : ℕ) :
    |((roundHalfEven ((m : ℚ) * 5 / 3) : ℤ) : ℚ) - (m : ℚ) * 5 / 3| ≤ 1 / 3 := by
  obtain ⟨k, j, hj, rfl⟩ : ∃ k j, j < 3 ∧ m = 3 * k + j := ⟨m / 3, m % 3, by omega, by omega⟩
  interval_cases j
  · have hx : ((3 * k + 0 : ℕ) : ℚ) * 5 / 3 = ((5 * (k : ℤ) : ℤ) : ℚ) := by push_cast; ring
    rw [hx, roundHalfEven_intCast]
    norm_num
  · have hx : ((3 * k + 1 : ℕ) : ℚ) * 5 / 3 = ((5 * (k : ℤ) + 1 : ℤ) : ℚ) + 2 / 3 := by
      push_cast; ring
    rw [hx, roundHalfEven_twothird]
    have hy : ((5 * (k : ℤ) + 1 + 1 : ℤ) : ℚ) - (((5 * (k : ℤ) + 1 : ℤ) : ℚ) + 2 / 3) = 1 / 3 := by
      push_cast; ring
    rw [hy, abs_of_nonneg (by norm_num : (0 : ℚ) ≤ 1 / 3)]
  · have hx : ((3 * k + 2 : ℕ) : ℚ) * 5 / 3 = ((5 * (k : ℤ) + 3 : ℤ) : ℚ) + 1 / 3 := by
      push_cast; ring
    rw [hx, roundHalfEven_third]
    have hy : ((5 * (k : ℤ) + 3 : ℤ) : ℚ) - (((5 * (k : ℤ) + 3 : ℤ) : ℚ) + 1 / 3) = -(1 / 3) := by
      push_cast; ring
    rw [hy, abs_neg, abs_of_nonneg (by norm_num : (0 : ℚ) ≤ 1 / 3)]

/-- Rounding a whole number of minutes in hours to two decimals. -/
lemma round2_rep (m : ℕ) :
    round2 ((m : ℚ) / 60) = ((roundHalfEven ((m : ℚ) * 5 / 3) : ℤ) : ℚ) / 100 := by
  unfold round2
  rw [(by ring : ((m : ℚ) / 60) * 100 = (m : ℚ) * 5 / 3)]

/-- Rounding a whole number of minutes in hours moves the value by at
most a hundredth. -/
lemma round2_err (m : ℕ) : |round2 ((m : ℚ) / 60) - (m : ℚ) / 60| ≤ 1 / 100 := by
  rw [round2_rep]
  have h : ((roundHalfEven ((m : ℚ) * 5 / 3) : ℤ) : ℚ) / 100 - (m : ℚ) / 60 =
      (((roundHalfEven ((m : ℚ) * 5 / 3) : ℤ) : ℚ) - (m : ℚ) * 5 / 3) / 100 := by
    ring
  rw [h, abs_div, abs_of_pos (by norm_num : (0 : ℚ) < 100),
    div_le_div_iff₀ (by norm_num) (by norm_num)]
  have := roundHalfEven_err m
  linarith

/-- The two-decimal roundings of normal, night and surplus hours sum to
the rounding of the total hours up to one hundredth, because the rounding
errors are thirds of hundredths and their signed sum is an integer count
of hundredths. -/
lemma round2_sum (a b c d : ℕ) (h : a + b + c = d) :
    |round2 ((a : ℚ) / 60) + round2 ((b : ℚ) / 60) + round2 ((c : ℚ) / 60) -
      round2 ((d : ℚ) / 60)| ≤ 1 / 100 := by
  rw [round2_rep, round2_rep, round2_rep, round2_rep]
  have hA := roundHalfEven_err a
  have hB := roundHalfEven_err b
  have hC := roundHalfEven_err c
  have hD := roundHalfEven_err d
  set A := roundHalfEven ((a : ℚ) * 5 / 3)
  set B := roundHalfEven ((b : ℚ) * 5 / 3)
  set C := roundHalfEven ((c : ℚ) * 5 / 3)
  set D := roundHalfEven ((d : ℚ) * 5 / 3)
  have hsum : (a : ℚ) * 5 / 3 + (b : ℚ) * 5 / 3 + (c : ℚ) * 5 / 3 = (d : ℚ) * 5 / 3 := by
    have hd : (a : ℚ) + (b : ℚ) + (c : ℚ) = (d : ℚ) := by exact_mod_cast congrArg (Nat.cast) h
    linarith
  obtain ⟨hA1, hA2⟩ := abs_le.mp hA
  obtain ⟨hB1, hB2⟩ := abs_le.mp hB
  obtain ⟨hC1, hC2⟩ := abs_le.mp hC
  obtain ⟨hD1, hD2⟩ := abs_le.mp hD
  have hZq : |((A + B + C - D : ℤ) : ℚ)| ≤ 4 / 3 := by
    rw [abs_le]
    constructor <;> push_cast <;> linarith
  have hZ1 : A + B + C - D ≤ 1 := by
    by_contra hc
    push_neg at hc
    have h2 : (2 : ℚ) ≤ ((A + B + C - D : ℤ) : ℚ) := by exact_mod_cast hc
    have := (abs_le.mp hZq).2
    linarith
  have hZ2 : -1 ≤ A + B + C - D := by
    by_contra hc
    push_neg at hc
    have h2 : ((A + B + C - D : ℤ) : ℚ) ≤ -2 := by
      have : A + B + C - D ≤ -2 := by omega
      exact_mod_cast this
    have := (abs_le.mp hZq).1
    linarith
  have hgoal : (A : ℚ) / 100 + (B : ℚ) / 100 + (C : ℚ) / 100 - (D : ℚ) / 100 =
      ((A + B + C - D : ℤ) : ℚ) / 100 := by
    push_cast
    ring
  rw [hgoal, abs_div, abs_of_pos (by norm_num : (0 : ℚ) < 100),
    div_le_div_iff₀ (by norm_num) (by norm_num)]
  have habs : |((A + B + C - D : ℤ) : ℚ)| ≤ 1 := by
    rw [abs_le]
    constructor
    · exact_mod_cast hZ2
    · exact_mod_cast hZ1
  linarith

/-- Rounding preserves non-negativity. -/
lemma round2_nonneg (x : ℚ) (hx : 0 ≤ x) : 0 ≤ round2 x := by
  have hf : (0 : ℤ) ≤ ⌊x * 100⌋ := Int.floor_nonneg.mpr (by positivity)
  have hr : (0 : ℤ) ≤ roundHalfEven (x * 100) := by
    unfold roundHalfEven
    split_ifs <;> omega
  unfold round2
  positivity

/-- A successfully parsed time of day is below 24 hours of minutes. -/
lemma parseHM_lt {str : String} {v : ℕ} (h : parseHM str = some v) : v < 1440 := by
  unfold parseHM at h
  repeat' split at h
  all_goals simp_all
  omega

/-- Inversion of a successful calculation: both times parsed, the rate
record normalized, and the result is built from the hour split. -/
lemma calc_some_inv {st et : String} {km : ℚ} {tf : Tarief} {b : Breakdown}
    (h : calculate_payment st et km tf = some b) :
    ∃ s e day night surp kmr, parseHM st = some s ∧ parseHM et = some e ∧
      normTarief tf = some (day, night, surp, kmr) ∧
      b = ⟨round2 (normalOf s e), round2 (nightOf s e), round2 (surplusOf s e),
           round2 (totalHoursOf s e),
           round2 (normalOf s e * day + nightOf s e * night +
                   surplusOf s e * surp + km * kmr)⟩ := by
  unfold calculate_payment at h
  split at h
  · simp at h
  · rename_i s hps
    split at h
    · simp at h
    · rename_i e hpe
      split at h
      · simp at h
      · rename_i day night surp kmr hnt
        injection h with h2
        exact ⟨s, e, day, night, surp, kmr, hps, hpe, hnt, h2.symm⟩

/-- The last element of a filtered list cuts the list after the last
element satisfying the test. -/
lemma filter_last_decomp {α : Type} (p : α → Bool) (l : List α)
    (hex : ∃ x ∈ l, p x = true) :
    ∃ l₁ t l₂, l = l₁ ++ t :: l₂ ∧ p t = true ∧ (∀ u ∈ l₂, p u = false) ∧
      (l.filter p).getLast? = some t := by
  induction l with
  | nil =>
    obtain ⟨x, hx, _⟩ := hex
    cases hx
  | cons y ys ih =>
    by_cases hys : ∃ x ∈ ys, p x = true
    · obtain ⟨l₁, t, l₂, heq, hpt, hl₂, hlast⟩ := ih hys
      refine ⟨y :: l₁, t, l₂, by rw [heq]; rfl, hpt, hl₂, ?_⟩
      rw [List.filter_cons]
      rcases hpy : p y with _ | _
      · simpa [hpy] using hlast
      · simp only [hpy, if_pos]
        rcases hzs : ys.filter p with _ | ⟨z, zs⟩
        · rw [hzs] at hlast
          simp at hlast
        · rw [hzs] at hlast
          simp only [List.getLast?_cons_cons]
          exact hlast
    · obtain ⟨x, hx, hpx⟩ := hex
      have hxy : p y = true := by
        rcases List.mem_cons.mp hx with rfl | hmem
        · exact hpx
        · exact absurd ⟨x, hmem, hpx⟩ hys
      have hflt : ys.filter p = [] := by
        rw [List.filter_eq_nil_iff]
        intro u hu hpu
        exact hys ⟨u, hu, hpu⟩
      refine ⟨[], y, ys, rfl, hxy, ?_, ?_⟩
      · intro u hu
        rcases hpu : p u with _ | _
        · rfl
        · exact absurd ⟨u, hu, hpu⟩ hys
      · rw [List.filter_cons, if_pos (by simp [hxy]), hflt]
        rfl

/-- C1: the claim says an entirely-daytime shift gets night_hours = 0
(Case C) and 09:00-17:00 at 50 km pays 130.10; the code instead hits the
elif branch because end (17:00) is at/before 06:00 of the following day,
so the whole capped duration counts as night hours: the code yields
Nachturen = 8, Normale Uren = 0 and Totaal = 139.06 on that shift. -/
theorem c1_daytime_shift_gets_night_rate :
    calculate_payment "09:00" "17:00" 50 tariefStd =
      some ⟨0, 8, 0, 8, 13906 / 100⟩ ∧
    (calculate_payment "09:00" "17:00" 50 tariefStd).map Breakdown.nachturen ≠ some 0 := by
  have hs : parseHM "09:00" = some 540 := by decide
  have he : parseHM "17:00" = some 1020 := by decide
  have h : calculate_payment "09:00" "17:00" 50 tariefStd =
      some ⟨0, 8, 0, 8, 13906 / 100⟩ := by
    simp only [calculate_payment, hs, he, normTarief_std]
    norm_num [normalOf, nightOf, nightRawOf, remainingOf, surplusOf, totalHoursOf, endAdjZ,
      night_start, night_end, round2, roundHalfEven]
  refine ⟨h, ?_⟩
  rw [h]
  simp only [Option.map_some']
  intro hc
  injection hc with hc2
  norm_num at hc2

/-- C2: the claim says the 06:00-18:00 shift is entirely daytime (Case C)
with night = 0, normal = 8 and total payment 193.68; the code instead
takes the elif branch (end 18:00 is at/before 06:00 of the following day),
so Nachturen = 8, Normale Uren = 0 and Totaal = 202.64. The surplus split
itself (4 surplus hours, 8 remaining of a 12-hour shift) does follow the
claim. -/
theorem c2_twelve_hour_shift_gets_night_rate :
    calculate_payment "06:00" "18:00" 0 tariefStd =
      some ⟨0, 8, 4, 12, 20264 / 100⟩ ∧
    (calculate_payment "06:00" "18:00" 0 tariefStd).map Breakdown.nachturen ≠ some 0 := by
  have hs : parseHM "06:00" = some 360 := by decide
  have he : parseHM "18:00" = some 1080 := by decide
  have h : calculate_payment "06:00" "18:00" 0 tariefStd =
      some ⟨0, 8, 4, 12, 20264 / 100⟩ := by
    simp only [calculate_payment, hs, he, normTarief_std]
    norm_num [normalOf, nightOf, nightRawOf, remainingOf, surplusOf, totalHoursOf, endAdjZ,
      night_start, night_end, round2, roundHalfEven]
  refine ⟨h, ?_⟩
  rw [h]
  simp only [Option.map_some']
  intro hc
  injection hc with hc2
  norm_num at hc2

/-- C3: a shift whose end time is numerically less than its start time is
treated as crossing midnight by advancing the end exactly 24 hours before
computing the total, and the 22:00-06:00 shift with 0 km yields 8 total
hours, 8 night hours, no normal or surplus hours and a payment of
124.56. -/
theorem c3_midnight_crossing (s e : ℕ) (h : e < s) :
    totalHoursOf s e = ((e : ℚ) + 1440 - (s : ℚ)) / 60 ∧
    calculate_payment "22:00" "06:00" 0 tariefStd = some ⟨0, 8, 0, 8, 12456 / 100⟩ := by
  constructor
  · unfold totalHoursOf endAdjZ
    rw [if_pos (by exact_mod_cast h)]
    push_cast
    ring_nf
  · have hs : parseHM "22:00" = some 1320 := by decide
    have he : parseHM "06:00" = some 360 := by decide
    simp only [calculate_payment, hs, he, normTarief_std]
    norm_num [normalOf, nightOf, nightRawOf, remainingOf, surplusOf, totalHoursOf, endAdjZ,
      night_start, night_end, round2, roundHalfEven]

/-- Witness for C3 at the concrete midnight-crossing shift 22:00-06:00. -/
theorem c3_witness :
    totalHoursOf 1320 360 = ((360 : ℚ) + 1440 - (1320 : ℚ)) / 60 :=
  (c3_midnight_crossing 1320 360 (by norm_num)).1

/-- C5 counterexample: the claim says a negative distance fails with a
distinct NegativeDistance error; the code performs no distance check and
happily prices the shift 09:00-17:00 with distance -5. -/
theorem c5_counterexample :
    ((-5 : ℚ) < 0) ∧
    calculate_payment "09:00" "17:00" (-5) tariefStd = some ⟨0, 8, 0, 8, 12311 / 100⟩ := by
  refine ⟨by norm_num, ?_⟩
  have hs : parseHM "09:00" = some 540 := by decide
  have he : parseHM "17:00" = some 1020 := by decide
  simp only [calculate_payment, hs, he, normTarief_std]
  norm_num [normalOf, nightOf, nightRawOf, remainingOf, surplusOf, totalHoursOf, endAdjZ,
    night_start, night_end, round2, roundHalfEven]

/-- C5 amended: an unparseable start or end time makes the calculation
return the single undifferentiated failure value `none`; when both times
parse and the rate record normalizes, a breakdown is returned for every
distance, negative distances included — there is no distance validation
and no distinct error kinds. -/
theorem c5_amended_failure_collapse (st et : String) (km : ℚ) (tf : Tarief) :
    ((parseHM st = none ∨ parseHM et = none) → calculate_payment st et km tf = none) ∧
    (∀ s e day night surp kmr, parseHM st = some s → parseHM et = some e →
      normTarief tf = some (day, night, surp, kmr) →
      ∃ b, calculate_payment st et km tf = some b) := by
  constructor
  · intro h
    rcases h with h | h
    · simp only [calculate_payment, h]
    · rcases hps : parseHM st with _ | s
      · simp only [calculate_payment, hps]
      · simp only [calculate_payment, hps, h]
  · intro s e day night surp kmr hps hpe hnt
    refine ⟨⟨round2 (normalOf s e), round2 (nightOf s e), round2 (surplusOf s e),
            round2 (totalHoursOf s e),
            round2 (normalOf s e * day + nightOf s e * night +
                    surplusOf s e * surp + km * kmr)⟩, ?_⟩
    simp only [calculate_payment, hps, hpe, hnt]

/-- Witness for the amended C5: an unparseable start collapses to none,
and a negative distance of -5 still produces a breakdown. -/
theorem c5_witness :
    calculate_payment "9900" "17:00" (-5) tariefStd = none ∧
    ∃ b, calculate_payment "09:00" "17:00" (-5) tariefStd = some b :=
  ⟨(c5_amended_failure_collapse "9900" "17:00" (-5) tariefStd).1 (Or.inl (by decide)),
   (c5_amended_failure_collapse "09:00" "17:00" (-5) tariefStd).2
     540 1020 (1445 / 100) (1557 / 100) (1952 / 100) (29 / 100)
     (by decide) (by decide) normTarief_std⟩

/-- C4: on a non-empty rate collection, when some rates are effective on
or before the query date the resolver returns the last such rate in
collection order (nothing after it qualifies); when none qualifies it
returns the first entry of the original unfiltered collection instead of
failing. -/
theorem c4_resolver_spec (rates : List Tarief) (d : ℤ) (hne : rates ≠ []) :
    ((∃ x ∈ rates, vanafLE x d = true) →
      ∃ l₁ t l₂, rates = l₁ ++ t :: l₂ ∧ vanafLE t d = true ∧
        (∀ u ∈ l₂, vanafLE u d = false) ∧ get_tarief_for_date rates d = some t) ∧
    ((∀ x ∈ rates, vanafLE x d = false) →
      get_tarief_for_date rates d = rates.head? ∧ ∃ t, rates.head? = some t) := by
  constructor
  · intro hex
    obtain ⟨l₁, t, l₂, heq, hpt, hl₂, hlast⟩ :=
      filter_last_decomp (fun t => vanafLE t d) rates hex
    refine ⟨l₁, t, l₂, heq, hpt, hl₂, ?_⟩
    unfold get_tarief_for_date
    rw [hlast]
  · intro hall
    have hflt : rates.filter (fun t => vanafLE t d) = [] := by
      rw [List.filter_eq_nil_iff]
      intro u hu
      simp [hall u hu]
    constructor
    · unfold get_tarief_for_date
      rw [hflt]
      rfl
    · cases rates with
      | nil => exact absurd rfl hne
      | cons y ys => exact ⟨y, rfl⟩

/-- Witness for C4 on the two-rate demo collection: queried between the
two effective dates the resolver cuts after the 2024-01-01 record, and
queried before all rates it falls back to the first entry. -/
theorem c4_witness :
    (∃ l₁ t l₂, demoRates = l₁ ++ t :: l₂ ∧ vanafLE t 20240301 = true ∧
      (∀ u ∈ l₂, vanafLE u 20240301 = false) ∧
      get_tarief_for_date demoRates 20240301 = some t) ∧
    (get_tarief_for_date demoRates 20230101 = demoRates.head? ∧
      ∃ t, demoRates.head? = some t) :=
  ⟨(c4_resolver_spec demoRates 20240301 (by simp [demoRates])).1
     ⟨rateJan, by simp [demoRates], by decide⟩,
   (c4_resolver_spec demoRates 20230101 (by simp [demoRates])).2 (by decide)⟩

/-- C6: whenever the calculation succeeds, the rounded normal, night and
surplus hours sum to the rounded total hours within one hundredth, and the
reported total hours are the elapsed shift duration (rounded to two
decimals, hence within one hundredth of the exact duration). -/
theorem c6_sum_invariant (st et : String) (km : ℚ) (tf : Tarief) (b : Breakdown)
    (h : calculate_payment st et km tf = some b) :
    |b.normale_uren + b.nachturen + b.surplus_uren - b.totale_uren| ≤ 1 / 100 ∧
    ∃ s e, parseHM st = some s ∧ parseHM et = some e ∧
      b.totale_uren = round2 (totalHoursOf s e) ∧
      |b.totale_uren - totalHoursOf s e| ≤ 1 / 100 := by
  obtain ⟨s, e, day, night, surp, kmr, hps, hpe, hnt, rfl⟩ := calc_some_inv h
  have hs : s < 1440 := parseHM_lt hps
  obtain ⟨a, bb, hab, hna, hnb⟩ := hours_rep s e hs
  have hsurp := surplus_eq s e hs
  have htot := total_eq s e hs
  constructor
  · show |round2 (normalOf s e) + round2 (nightOf s e) + round2 (surplusOf s e) -
      round2 (totalHoursOf s e)| ≤ 1 / 100
    rw [hna, hnb, hsurp, htot]
    exact round2_sum a bb (totalMinutes s e - 480) (totalMinutes s e) (by omega)
  · refine ⟨s, e, hps, hpe, rfl, ?_⟩
    show |round2 (totalHoursOf s e) - totalHoursOf s e| ≤ 1 / 100
    rw [htot]
    exact round2_err (totalMinutes s e)

/-- Witness for C6 on the 8.5-hour shift 09:00-17:30 with the standard
rate record. -/
theorem c6_witness :
    |(0 : ℚ) + 8 + 1 / 2 - 17 / 2| ≤ 1 / 100 ∧
    ∃ s e, parseHM "09:00" = some s ∧ parseHM "17:30" = some e ∧
      (17 / 2 : ℚ) = round2 (totalHoursOf s e) ∧
      |(17 / 2 : ℚ) - totalHoursOf s e| ≤ 1 / 100 :=
  c6_sum_invariant "09:00" "17:30" 0 tariefStd ⟨0, 8, 1 / 2, 17 / 2, 13432 / 100⟩
    (by
      have hs : parseHM "09:00" = some 540 := by decide
      have he : parseHM "17:30" = some 1050 := by decide
      simp only [calculate_payment, hs, he, normTarief_std]
      norm_num [normalOf, nightOf, nightRawOf, remainingOf, surplusOf, totalHoursOf, endAdjZ,
        night_start, night_end, round2, roundHalfEven])

/-- C7: with a rate collection sorted by effective date and two query
dates in order, both on or after some effective date, the resolver answers
both queries and the effective date of the first answer is at most that of
the second. -/
theorem c7_resolver_monotonic (rates : List Tarief) (d1 d2 : ℤ)
    (hsorted : rates.Pairwise (fun a b => ∀ x y, a.vanaf = some x → b.vanaf = some y → x ≤ y))
    (h12 : d1 < d2)
    (hq : ∃ t ∈ rates, vanafLE t d1 = true) :
    ∃ r1 r2 x y, get_tarief_for_date rates d1 = some r1 ∧
      get_tarief_for_date rates d2 = some r2 ∧
      r1.vanaf = some x ∧ r2.vanaf = some y ∧ x ≤ y := by
  have hmono : ∀ t, vanafLE t d1 = true → vanafLE t d2 = true := by
    intro t h
    unfold vanafLE at h ⊢
    rcases hv : t.vanaf with _ | v
    · rw [hv] at h
      exact Bool.noConfusion h
    · rw [hv] at h
      have hle : v ≤ d1 := of_decide_eq_true h
      exact decide_eq_true (by omega)
  obtain ⟨l₁, t₁, l₂, heq1, hpt1, hl₂, hlast1⟩ :=
    filter_last_decomp (fun t => vanafLE t d1) rates hq
  obtain ⟨t0, ht0, hpt0⟩ := hq
  obtain ⟨m₁, t₂, m₂, heq2, hpt2, hm₂, hlast2⟩ :=
    filter_last_decomp (fun t => vanafLE t d2) rates ⟨t0, ht0, hmono t0 hpt0⟩
  obtain ⟨x, hx, hxle⟩ : ∃ x, t₁.vanaf = some x ∧ x ≤ d1 := by
    unfold vanafLE at hpt1
    rcases hv : t₁.vanaf with _ | v
    · rw [hv] at hpt1
      exact Bool.noConfusion hpt1
    · rw [hv] at hpt1
      exact ⟨v, rfl, of_decide_eq_true hpt1⟩
  obtain ⟨y, hy, hyle⟩ : ∃ y, t₂.vanaf = some y ∧ y ≤ d2 := by
    unfold vanafLE at hpt2
    rcases hv : t₂.vanaf with _ | v
    · rw [hv] at hpt2
      exact Bool.noConfusion hpt2
    · rw [hv] at hpt2
      exact ⟨v, rfl, of_decide_eq_true hpt2⟩
  refine ⟨t₁, t₂, x, y, ?_, ?_, hx, hy, ?_⟩
  · unfold get_tarief_for_date
    rw [hlast1]
  · unfold get_tarief_for_date
    rw [hlast2]
  · have ht₁mem : t₁ ∈ rates := by
      rw [heq1]
      exact List.mem_append_right _ (List.mem_cons_self _ _)
    rw [heq2] at ht₁mem hsorted
    rcases List.mem_append.mp ht₁mem with hm1 | hcons
    · obtain ⟨_, _, hcross⟩ := List.pairwise_append.mp hsorted
      exact hcross t₁ hm1 t₂ (List.mem_cons_self _ _) x y hx hy
    · rcases List.mem_cons.mp hcons with rfl | hmem2
      · rw [hx] at hy
        injection hy with hxy
        omega
      · have hfalse := hm₂ t₁ hmem2
        rw [hmono t₁ hpt1] at hfalse
        cases hfalse

/-- Witness for C7 on the two-rate demo collection with queries on
2024-03-01 and 2024-07-01. -/
theorem c7_witness :
    ∃ r1 r2 x y, get_tarief_for_date demoRates 20240301 = some r1 ∧
      get_tarief_for_date demoRates 20240701 = some r2 ∧
      r1.vanaf = some x ∧ r2.vanaf = some y ∧ x ≤ y :=
  c7_resolver_monotonic demoRates 20240301 20240701
    (by
      refine List.Pairwise.cons ?_ (List.pairwise_singleton _ _)
      intro b hb x y hx hy
      rw [List.mem_singleton] at hb
      subst hb
      rw [show rateJan.vanaf = some 20240101 from rfl] at hx
      rw [show rateJun.vanaf = some 20240601 from rfl] at hy
      injection hx with hx2
      injection hy with hy2
      omega)
    (by norm_num)
    ⟨rateJan, by simp [demoRates], by decide⟩

/-- C8: a shift starting before 22:00 whose midnight-adjusted end lies
after 22:00 takes the Case A branch: its night hours are the span from
22:00 to the earlier of the end and 06:00 next day, in hours, clamped
afterwards into the interval from zero to the remaining hours. -/
theorem c8_case_a_night (s e : ℕ)
    (h1 : (s : ℤ) < night_start) (h2 : night_start < endAdjZ s e) :
    nightOf s e =
      max 0 (min (((min (endAdjZ s e) night_end - night_start : ℤ) : ℚ) / 60)
        (remainingOf s e)) ∧
    0 ≤ nightOf s e ∧ nightOf s e ≤ remainingOf s e := by
  have hs : s < 1440 := by
    have : (s : ℤ) < 1320 := by
      unfold night_start at h1
      exact h1
    omega
  have hrem := remaining_eq s e hs
  have hrem0 : (0 : ℚ) ≤ remainingOf s e := by
    rw [hrem]
    positivity
  refine ⟨?_, le_max_left _ _, ?_⟩
  · unfold nightOf
    rw [nightRaw_caseA s e ⟨h1, h2⟩]
  · unfold nightOf
    exact max_le hrem0 (min_le_right _ _)

/-- Witness for C8 on the shift 09:00-23:00. -/
theorem c8_witness :
    nightOf 540 1380 =
      max 0 (min (((min (endAdjZ 540 1380) night_end - night_start : ℤ) : ℚ) / 60)
        (remainingOf 540 1380)) ∧
    0 ≤ nightOf 540 1380 ∧ nightOf 540 1380 ≤ remainingOf 540 1380 :=
  c8_case_a_night 540 1380 (by norm_num [night_start])
    (by norm_num [endAdjZ, night_start])

/-- C9: for any pair of parseable times the computed duration lies in the
interval from 0 inclusive to 24 exclusive, the surplus stays below 16
hours, the unrounded hour components are non-negative, and so is every
hour component of a successful result. -/
theorem c9_duration_bounds (st et : String) (s e : ℕ)
    (hps : parseHM st = some s) (hpe : parseHM et = some e) :
    0 ≤ totalHoursOf s e ∧ totalHoursOf s e < 24 ∧
    0 ≤ surplusOf s e ∧ surplusOf s e < 16 ∧
    0 ≤ nightOf s e ∧ 0 ≤ normalOf s e ∧
    ∀ (km : ℚ) (tf : Tarief) (b : Breakdown), calculate_payment st et km tf = some b →
      0 ≤ b.normale_uren ∧ 0 ≤ b.nachturen ∧ 0 ≤ b.surplus_uren ∧ 0 ≤ b.totale_uren := by
  have hs := parseHM_lt hps
  have he := parseHM_lt hpe
  have hm := totalMinutes_lt s e hs he
  have htot := total_eq s e hs
  have hsurp := surplus_eq s e hs
  obtain ⟨a, bb, hab, hna, hnb⟩ := hours_rep s e hs
  have h1 : 0 ≤ totalHoursOf s e := by
    rw [htot]
    exact div_nonneg (Nat.cast_nonneg _) (by norm_num)
  have h2 : totalHoursOf s e < 24 := by
    rw [htot, div_lt_iff₀ (by norm_num : (0 : ℚ) < 60)]
    have hq : ((totalMinutes s e : ℕ) : ℚ) < 1440 := by exact_mod_cast hm
    linarith
  have h3 : 0 ≤ surplusOf s e := le_max_left _ _
  have h4 : surplusOf s e < 16 := by
    rw [hsurp, div_lt_iff₀ (by norm_num : (0 : ℚ) < 60)]
    have hq : ((totalMinutes s e - 480 : ℕ) : ℚ) < 960 := by
      have hn : totalMinutes s e - 480 < 960 := by omega
      exact_mod_cast hn
    linarith
  have h5 : 0 ≤ nightOf s e := by
    rw [hnb]
    exact div_nonneg (Nat.cast_nonneg _) (by norm_num)
  have h6 : 0 ≤ normalOf s e := by
    rw [hna]
    exact div_nonneg (Nat.cast_nonneg _) (by norm_num)
  refine ⟨h1, h2, h3, h4, h5, h6, ?_⟩
  intro km tf b hb
  obtain ⟨s', e', day, night, surp, kmr, hps', hpe', hnt, rfl⟩ := calc_some_inv hb
  rw [hps] at hps'
  rw [hpe] at hpe'
  injection hps' with hs'
  injection hpe' with he'
  subst hs'
  subst he'
  exact ⟨round2_nonneg _ h6, round2_nonneg _ h5, round2_nonneg _ h3, round2_nonneg _ h1⟩

/-- Witness for C9 on the parseable pair 09:00 and 17:00. -/
theorem c9_witness :
    0 ≤ totalHoursOf 540 1020 ∧ totalHoursOf 540 1020 < 24 :=
  ⟨(c9_duration_bounds "09:00" "17:00" 540 1020 (by decide) (by decide)).1,
   (c9_duration_bounds "09:00" "17:00" 540 1020 (by decide) (by decide)).2.1⟩

/-- C10: the calculation is total: it returns `none` exactly when a time
fails to parse or the rate record fails numeric normalization (missing or
unrepairable text fields included), and a breakdown in every other case,
so every failure kind collapses to the single `none` outcome and no
exception escapes. -/
theorem c10_total_none_iff (st et : String) (km : ℚ) (tf : Tarief) :
    calculate_payment st et km tf = none ↔
      parseHM st = none ∨ parseHM et = none ∨ normTarief tf = none := by
  constructor
  · intro h
    rcases hps : parseHM st with _ | s
    · exact Or.inl rfl
    rcases hpe : parseHM et with _ | e
    · exact Or.inr (Or.inl rfl)
    rcases hnt : normTarief tf with _ | q
    · exact Or.inr (Or.inr rfl)
    · obtain ⟨day, night, surp, kmr⟩ := q
      rw [calculate_payment] at h
      simp only [hps, hpe, hnt] at h
      exact absurd h (by simp)
  · intro h
    rcases h with h | h | h
    · simp only [calculate_payment, h]
    · rcases hps : parseHM st with _ | s
      · simp only [calculate_payment, hps]
      · simp only [calculate_payment, hps, h]
    · rcases hps : parseHM st with _ | s
      · simp only [calculate_payment, hps]
      · rcases hpe : parseHM et with _ | e
        · simp only [calculate_payment, hps, hpe]
        · simp only [calculate_payment, hps, hpe, h]

/-- Witness for C10: an unparseable start time makes the calculation
return none. -/
theorem c10_witness :
    calculate_payment "banana" "17:00" 0 tariefStd = none :=
  (c10_total_none_iff "banana" "17:00" 0 tariefStd).mpr (Or.inl (by decide))

end Ritten
